import Mathlib

/-!
Verification of the zbin directive interpreter (`src/util/zbin.c`).

The embedding models the C program over `Nat`/`Int`:
* `size_t` / `unsigned long` are 64-bit; arithmetic that can wrap is taken
  modulo `W = 2^64` explicitly, and C unsigned subtraction is `usub`.
* byte buffers are `List Nat` (each byte a value `< 256` in well-formed
  states); `memcpy`-style writes are `writeBytes`, which keeps the buffer
  length fixed (writes past the allocated region are outside the model,
  matching the fact that they are undefined behaviour in the C source).
* the directive record is the 16-byte `union zinfo_record`: a 4-byte tag
  plus three 32-bit fields.  The fields at bytes 8-11 and 12-15 are named
  `len` and `algn` as in `struct zinfo_copy`; `struct zinfo_subtract`
  reads the bytes 8-11 field as its `divisor`, exposed by the alias below.
* a handler receives the output file by pointer and can mutate it even on
  a failing path, so a handler returns `handler_result`: the C return
  value (`none` for 0, `some e` for -1, with `e` identifying the error
  message printed) together with the state of `*output` when it returns.
* the nrv2b compressor is an external collaborator: it is a parameter
  `compress : Bytes → Option Bytes` (`none` models a non-`UCL_E_OK`
  status, `some packed` models success writing `packed` and reporting
  `packed.length`).
-/

namespace Zbin

/-- Word modulus of the 64-bit target: `unsigned long` / `size_t` wrap at `2^64`. -/
def W : Nat := 2 ^ 64

abbrev Bytes := List Nat

/-- C `align` from zbin.c line 60: `(( value + align - 1 ) & ~( align - 1 ))`
on `unsigned long`.  `+ (W - 1)` encodes the `- 1` of the C unsigned
arithmetic and `(W - 1) ^^^ x` is the 64-bit bitwise complement of `x`. -/
def align (value a : Nat) : Nat :=
  ((value + a + (W - 1)) % W) &&& ((W - 1) ^^^ ((a + (W - 1)) % W))

/-- `struct input_file`: the immutable input buffer; `len` is the byte count
established by `read_file`, hence equal to the buffer length. -/
structure input_file where
  buf : Bytes
deriving DecidableEq, Repr

def input_file.len (i : input_file) : Nat := i.buf.length

/-- `struct output_file`: preallocated buffer, logical length, capacity. -/
structure output_file where
  buf : Bytes
  len : Nat
  max_len : Nat
deriving DecidableEq, Repr

/-- `union zinfo_record`: 4 raw tag bytes plus three little-endian u32
fields.  `len` and `algn` are the `zinfo_copy`/`zinfo_pack` names for the
fields at bytes 8-11 and 12-15; `zinfo_subtract` calls bytes 8-11
`divisor` (see `zinfo_record.divisor`). -/
structure zinfo_record where
  type : Bytes
  offset : Nat
  len : Nat
  algn : Nat
deriving DecidableEq, Repr

/-- The `divisor` field of `struct zinfo_subtract` occupies the same bytes
as `zinfo_copy.len` in the union. -/
def zinfo_record.divisor (z : zinfo_record) : Nat := z.len

/-- A record read from a .zinfo file: the tag is 4 raw bytes and each u32
field is below `2^32`. -/
def zinfo_record.wf (z : zinfo_record) : Prop :=
  z.type.length = 4 ∧ z.offset < 2 ^ 32 ∧ z.len < 2 ^ 32 ∧ z.algn < 2 ^ 32

/-- The distinct failure exits of the processing code, identified by the
message each `return -1` path prints. -/
inductive zerr where
  | inputOverrun
  | outputOverrun
  | compressionFailure
  | patchOutOfRange
  | unsupportedDatasize
  | unknownDirective
deriving DecidableEq, Repr

/-- Return value of a handler: the C `int` status (`none` = 0, `some e` =
-1) together with the state of `*output` at the `return`. -/
structure handler_result where
  err : Option zerr
  out : output_file
deriving DecidableEq, Repr

/-- Overwrite `src.length` bytes of `buf` starting at `pos`, keeping the
buffer length fixed (bytes that would land outside the allocation are
dropped: such writes are undefined behaviour in the C source). -/
def writeBytes (buf : Bytes) (pos : Nat) (src : Bytes) : Bytes :=
  (buf.take pos ++ src ++ buf.drop (pos + src.length)).take buf.length

/-- The byte range `[off, off+len)` of a buffer (a `memcpy` source). -/
def slice (buf : Bytes) (off len : Nat) : Bytes :=
  (buf.drop off).take len

/-- Read an `n`-byte little-endian unsigned integer at `off` (the target
of the `uint8_t*`/`uint16_t*`/`uint32_t*` loads in
`process_zinfo_subtract`; the record layout is little/native-endian). -/
def readLE (buf : Bytes) (off : Nat) : Nat → Nat
  | 0 => 0
  | n + 1 => buf.getD off 0 + 256 * readLE buf (off + 1) n

/-- Little-endian `n`-byte encoding of `v % 2^(8*n)`. -/
def toLE (v : Nat) : Nat → Bytes
  | 0 => []
  | n + 1 => (v % 256) :: toLE (v / 256) n

/-- Reinterpret a 64-bit unsigned value as a `signed long`
(two's complement). -/
def signed64 (n : Nat) : Int :=
  if n % W < 2 ^ 63 then ((n % W : Nat) : Int) else ((n % W : Nat) : Int) - (W : Int)

/-- C `unsigned long` subtraction `a - b` (wraps modulo `2^64`). -/
def usub (a b : Nat) : Nat := (a % W + (W - b % W)) % W

/-- `process_zinfo_copy` (zbin.c lines 141-168).  Note that the alignment
step assigns `output->len` before the output-overrun check, so the
aligned length is visible in `*output` on that failing path. -/
def process_zinfo_copy (input : input_file) (output : output_file)
    (zinfo : zinfo_record) : handler_result :=
  let offset := zinfo.offset
  let len := zinfo.len
  if offset + len > input.len then
    ⟨some .inputOverrun, output⟩
  else
    let output := { output with len := align output.len zinfo.algn }
    if (output.len + len) % W > output.max_len then
      ⟨some .outputOverrun, output⟩
    else
      let output := { output with
        buf := writeBytes output.buf output.len (slice input.buf offset len) }
      ⟨none, { output with len := (output.len + len) % W }⟩

/-- `process_zinfo_pack` (zbin.c lines 170-208).  The compressor writes
directly at `output->buf + output->len` and reports `packed_len`; the
second overrun check runs only after `output->len` has been advanced. -/
def process_zinfo_pack (compress : Bytes → Option Bytes) (input : input_file)
    (output : output_file) (zinfo : zinfo_record) : handler_result :=
  let offset := zinfo.offset
  let len := zinfo.len
  if offset + len > input.len then
    ⟨some .inputOverrun, output⟩
  else
    let output := { output with len := align output.len zinfo.algn }
    if output.len > output.max_len then
      ⟨some .outputOverrun, output⟩
    else
      match compress (slice input.buf offset len) with
      | none => ⟨some .compressionFailure, output⟩
      | some packed =>
        let output := { output with
          buf := writeBytes output.buf output.len packed,
          len := (output.len + packed.length) % W }
        if output.len > output.max_len then
          ⟨some .outputOverrun, output⟩
        else
          ⟨none, output⟩

/-- `process_zinfo_subtract` (zbin.c lines 210-264).  `raw_delta` is the
`unsigned long` difference of the two aligned lengths reinterpreted as
`signed long`; `delta` divides it by the u32 `divisor` converted to
`signed long`, with C truncating signed division (`Int.tdiv`); the
in-place `*target += delta` wraps modulo `2^(8*datasize)`. -/
def process_zinfo_subtract (input : input_file) (output : output_file)
    (subtract : zinfo_record) (datasize : Nat) : handler_result :=
  let offset := subtract.offset
  if offset + datasize > output.len then
    ⟨some .patchOutOfRange, output⟩
  else
    let raw_delta : Int :=
      signed64 (usub (align output.len subtract.divisor)
                     (align input.len subtract.divisor))
    let delta : Int := Int.tdiv raw_delta (subtract.divisor : Int)
    if datasize = 1 ∨ datasize = 2 ∨ datasize = 4 then
      let old := readLE output.buf offset datasize
      let nw : Nat := ((((old : Int) + delta) % ((2 ^ (8 * datasize) : Nat) : Int))).toNat
      ⟨none, { output with buf := writeBytes output.buf offset (toLE nw datasize) }⟩
    else
      ⟨some .unsupportedDatasize, output⟩

def process_zinfo_subb (input : input_file) (output : output_file)
    (zinfo : zinfo_record) : handler_result :=
  process_zinfo_subtract input output zinfo 1

def process_zinfo_subw (input : input_file) (output : output_file)
    (zinfo : zinfo_record) : handler_result :=
  process_zinfo_subtract input output zinfo 2

def process_zinfo_subl (input : input_file) (output : output_file)
    (zinfo : zinfo_record) : handler_result :=
  process_zinfo_subtract input output zinfo 4

/-- The ASCII bytes of the tag strings in `zinfo_processors`. -/
def copyTag : Bytes := [0x43, 0x4f, 0x50, 0x59]
def packTag : Bytes := [0x50, 0x41, 0x43, 0x4b]
def subbTag : Bytes := [0x53, 0x55, 0x42, 0x42]
def subwTag : Bytes := [0x53, 0x55, 0x42, 0x57]
def sublTag : Bytes := [0x53, 0x55, 0x42, 0x4c]

/-- The C string built by `strncat ( type, common->type, 4 )` into an
empty buffer: at most 4 bytes of the tag, stopping at the first NUL. -/
def cstring (b : Bytes) : Bytes := (b.take 4).takeWhile (fun c => c ≠ 0)

/-- The `zinfo_processors` dispatch table (zbin.c lines 291-297). -/
def zinfo_processors (compress : Bytes → Option Bytes) :
    List (Bytes × (input_file → output_file → zinfo_record → handler_result)) :=
  [ (copyTag, process_zinfo_copy),
    (packTag, process_zinfo_pack compress),
    (subbTag, process_zinfo_subb),
    (subwTag, process_zinfo_subw),
    (sublTag, process_zinfo_subl) ]

/-- `process_zinfo` (zbin.c lines 299-317): linear scan of the table with
`strcmp` against the NUL-truncated tag; no match prints "Unknown zinfo
record type" and returns -1 leaving `*output` untouched. -/
def process_zinfo (compress : Bytes → Option Bytes) (input : input_file)
    (output : output_file) (zinfo : zinfo_record) : handler_result :=
  let type := cstring zinfo.type
  match (zinfo_processors compress).find? (fun p => p.1 == type) with
  | some p => p.2 input output zinfo
  | none => ⟨some .unknownDirective, output⟩

/-- `sizeof ( output->buf )` in `alloc_output_file`: the size of the
`void *` member itself, 8 bytes on the 64-bit target. -/
def sizeof_output_buf : Nat := 8

/-- `alloc_output_file` (zbin.c lines 128-139).  `malloc_bytes` stands for
the indeterminate contents `malloc` hands back (length `max_len`); the
`memset` fills `sizeof ( output->buf )` bytes with `0xff`. -/
def alloc_output_file (max_len : Nat) (malloc_bytes : Bytes) : output_file :=
  { buf := writeBytes malloc_bytes 0 (List.replicate sizeof_output_buf 0xff),
    len := 0,
    max_len := max_len }

/-- The directive loop of `main` (zbin.c lines 347-351): apply records in
order, `exit ( 1 )` on the first handler failure. -/
def process_all (compress : Bytes → Option Bytes) (input : input_file) :
    List zinfo_record → output_file → Except (zerr × output_file) output_file
  | [], output => .ok output
  | z :: zs, output =>
    match process_zinfo compress input output z with
    | ⟨some e, output2⟩ => .error (e, output2)
    | ⟨none, output2⟩ => process_all compress input zs output2

/-- End-to-end `main` data flow: allocate `input.len * 4` bytes of output,
run every record, and emit `buf[0:len]` only if no handler failed. -/
def zbin_output (compress : Bytes → Option Bytes) (input : input_file)
    (zs : List zinfo_record) (malloc_bytes : Bytes) : Option Bytes :=
  match process_all compress input zs
      (alloc_output_file ((input.len * 4) % W) malloc_bytes) with
  | .ok out => some (out.buf.take out.len)
  | .error _ => none

/-! ### Properties of `align` at power-of-two alignments -/

theorem land_high_mask (x k : Nat) (hx : x < W) (hk : k ≤ 64) :
    x &&& ((W - 1) ^^^ (2 ^ k - 1)) = x / 2 ^ k * 2 ^ k := by
  have h1 : x / 2 ^ k * 2 ^ k = (x >>> k) <<< k := by
    rw [Nat.shiftLeft_eq, Nat.shiftRight_eq_div_pow]
  have hW : W - 1 = 2 ^ 64 - 1 := rfl
  apply Nat.eq_of_testBit_eq
  intro i
  rw [h1, hW, Nat.testBit_and, Nat.testBit_xor, Nat.testBit_two_pow_sub_one,
    Nat.testBit_two_pow_sub_one, Nat.testBit_shiftLeft, Nat.testBit_shiftRight]
  by_cases h64 : i < 64
  · by_cases hik : k ≤ i
    · have h2 : k + (i - k) = i := by omega
      simp [h2, h64, hik, (by omega : ¬ i < k)]
    · simp [h64, (by omega : i < k), (by omega : ¬ k ≤ i)]
  · have hxi : Nat.testBit x i = false := by
      apply Nat.testBit_lt_two_pow
      calc x < W := hx
        _ = 2 ^ 64 := rfl
        _ ≤ 2 ^ i := Nat.pow_le_pow_right (by norm_num) (by omega)
    have h2 : k + (i - k) = i := by omega
    simp [h2, hxi, h64, (by omega : k ≤ i)]

theorem align_two_pow (v k : Nat) (hk : k ≤ 63) :
    align v (2 ^ k) = ((v + 2 ^ k + (W - 1)) % W) / 2 ^ k * 2 ^ k := by
  have h2 := Nat.two_pow_pos k
  have h3 : (2:Nat) ^ k ≤ 2 ^ 63 := Nat.pow_le_pow_right (by norm_num) hk
  have h1 : (2 ^ k + (W - 1)) % W = 2 ^ k - 1 := by
    simp only [W]
    have h4 : (2:Nat) ^ 63 < 2 ^ 64 := by norm_num
    omega
  rw [align, h1]
  exact land_high_mask _ k (Nat.mod_lt _ (by rw [W]; positivity)) (by omega)

theorem align_arith (v k : Nat) (hk : k ≤ 63) (hv : v + 2 ^ k ≤ W) :
    align v (2 ^ k) = (v + 2 ^ k - 1) / 2 ^ k * 2 ^ k := by
  rw [align_two_pow v k hk]
  have h2 := Nat.two_pow_pos k
  have h3 : (v + 2 ^ k + (W - 1)) % W = v + 2 ^ k - 1 := by
    simp only [W] at hv ⊢
    omega
  rw [h3]

theorem align_mod_self (v k : Nat) (hk : k ≤ 63) : align v (2 ^ k) % 2 ^ k = 0 := by
  rw [align_two_pow v k hk]
  exact Nat.mul_mod_left _ _

theorem align_dvd (v k : Nat) (hk : k ≤ 63) : 2 ^ k ∣ align v (2 ^ k) := by
  rw [align_two_pow v k hk]
  exact dvd_mul_left _ _

theorem align_lt_W (v k : Nat) (hk : k ≤ 63) : align v (2 ^ k) < W := by
  rw [align_two_pow v k hk]
  calc ((v + 2 ^ k + (W - 1)) % W) / 2 ^ k * 2 ^ k
      ≤ (v + 2 ^ k + (W - 1)) % W := Nat.div_mul_le_self _ _
    _ < W := Nat.mod_lt _ (by rw [W]; positivity)

theorem align_ge (v k : Nat) (hk : k ≤ 63) (hv : v + 2 ^ k ≤ W) :
    v ≤ align v (2 ^ k) := by
  rw [align_arith v k hk hv]
  have h2 := Nat.two_pow_pos k
  have h6 : v + 2 ^ k - 1 < (v + 2 ^ k - 1) / 2 ^ k * 2 ^ k + 2 ^ k :=
    Nat.lt_div_mul_add h2
  omega

theorem align_le (v k : Nat) (hk : k ≤ 63) (hv : v + 2 ^ k ≤ W) :
    align v (2 ^ k) ≤ v + 2 ^ k - 1 := by
  rw [align_arith v k hk hv]
  exact Nat.div_mul_le_self _ _

theorem align_of_dvd_self (m k : Nat) (hk : k ≤ 63) (hd : 2 ^ k ∣ m)
    (hm : m + 2 ^ k ≤ W) : align m (2 ^ k) = m := by
  have h2 := Nat.two_pow_pos k
  obtain ⟨q, hq⟩ := hd
  rw [align_arith m k hk hm, hq]
  rw [show 2 ^ k * q + 2 ^ k - 1 = 2 ^ k * q + (2 ^ k - 1) by omega]
  rw [Nat.mul_add_div h2, Nat.div_eq_of_lt (by omega)]
  ring

theorem align_idem (v k : Nat) (hk : k ≤ 63) :
    align (align v (2 ^ k)) (2 ^ k) = align v (2 ^ k) := by
  have h2 := Nat.two_pow_pos k
  have hlt := align_lt_W v k hk
  obtain ⟨q, hq⟩ := align_dvd v k hk
  have hW : (2:Nat) ^ k ∣ W := pow_dvd_pow 2 (by omega)
  obtain ⟨m, hm⟩ := hW
  have hqm : q < m := by
    by_contra h
    push_neg at h
    have h5 : 2 ^ k * m ≤ 2 ^ k * q := Nat.mul_le_mul_left _ h
    omega
  have hle : align v (2 ^ k) + 2 ^ k ≤ W := by
    have h5 : 2 ^ k * (q + 1) ≤ 2 ^ k * m := Nat.mul_le_mul_left _ (by omega)
    have h6 : 2 ^ k * (q + 1) = 2 ^ k * q + 2 ^ k := by ring
    omega
  exact align_of_dvd_self _ k hk ⟨q, hq⟩ hle

/-! ### Properties of `writeBytes`, `readLE`, `toLE`, `signed64`/`usub` -/

theorem writeBytes_eq (buf src : Bytes) (pos : Nat)
    (h : pos + src.length ≤ buf.length) :
    writeBytes buf pos src = buf.take pos ++ src ++ buf.drop (pos + src.length) := by
  have hlen : (buf.take pos ++ src ++ buf.drop (pos + src.length)).length = buf.length := by
    simp only [List.length_append, List.length_take, List.length_drop]
    omega
  rw [writeBytes, ← hlen, List.take_length]

theorem writeBytes_length (buf src : Bytes) (pos : Nat) :
    (writeBytes buf pos src).length = buf.length := by
  simp only [writeBytes, List.length_take, List.length_append, List.length_drop]
  omega

theorem writeBytes_nil (buf : Bytes) (pos : Nat) : writeBytes buf pos [] = buf := by
  simp only [writeBytes, List.append_nil, List.length_nil, Nat.add_zero,
    List.take_append_drop, List.take_length]

theorem writeBytes_getD_left (buf src : Bytes) (pos i : Nat)
    (h : pos + src.length ≤ buf.length) (hi : i < pos) :
    (writeBytes buf pos src).getD i 0 = buf.getD i 0 := by
  rw [writeBytes_eq buf src pos h, List.append_assoc]
  rw [List.getD_append _ _ _ _ (by simp only [List.length_take]; omega)]
  simp only [List.getD_eq_getElem?_getD, List.getElem?_take_of_lt hi]

theorem writeBytes_getD_mid (buf src : Bytes) (pos i : Nat)
    (h : pos + src.length ≤ buf.length) (hi : i < src.length) :
    (writeBytes buf pos src).getD (pos + i) 0 = src.getD i 0 := by
  rw [writeBytes_eq buf src pos h, List.append_assoc]
  have htk : (buf.take pos).length = pos := by simp only [List.length_take]; omega
  rw [List.getD_append_right _ _ _ _ (by omega : (buf.take pos).length ≤ pos + i)]
  rw [htk, Nat.add_sub_cancel_left]
  rw [List.getD_append _ _ _ _ hi]

theorem writeBytes_getD_right (buf src : Bytes) (pos i : Nat)
    (h : pos + src.length ≤ buf.length) (hi : pos + src.length ≤ i) :
    (writeBytes buf pos src).getD i 0 = buf.getD i 0 := by
  have htk : (buf.take pos).length = pos := by simp only [List.length_take]; omega
  rw [writeBytes_eq buf src pos h, List.append_assoc]
  rw [List.getD_append_right _ _ _ _ (by rw [htk]; omega), htk]
  rw [List.getD_append_right _ _ _ _ (by omega : src.length ≤ i - pos)]
  simp only [List.getD_eq_getElem?_getD, List.getElem?_drop]
  rw [show pos + src.length + (i - pos - src.length) = i by omega]

theorem writeBytes_slice (buf src : Bytes) (pos : Nat)
    (h : pos + src.length ≤ buf.length) :
    slice (writeBytes buf pos src) pos src.length = src := by
  rw [writeBytes_eq buf src pos h, slice, List.append_assoc]
  rw [List.drop_left' (by simp only [List.length_take]; omega)]
  rw [List.take_left' rfl]

theorem readLE_congr (n : Nat) : ∀ (buf1 buf2 : Bytes) (off1 off2 : Nat),
    (∀ i, i < n → buf1.getD (off1 + i) 0 = buf2.getD (off2 + i) 0) →
    readLE buf1 off1 n = readLE buf2 off2 n := by
  induction n with
  | zero => intro _ _ _ _ _; rfl
  | succ m ih =>
    intro buf1 buf2 off1 off2 h
    simp only [readLE]
    have h0 := h 0 (by omega)
    simp only [Nat.add_zero] at h0
    rw [h0, ih buf1 buf2 (off1 + 1) (off2 + 1) (fun i hi => by
      have hh := h (i + 1) (by omega)
      rw [show off1 + (i + 1) = off1 + 1 + i by omega,
          show off2 + (i + 1) = off2 + 1 + i by omega] at hh
      exact hh)]

theorem readLE_cons (a : Nat) (rest : Bytes) (off n : Nat) :
    readLE (a :: rest) (off + 1) n = readLE rest off n := by
  induction n generalizing off with
  | zero => rfl
  | succ m ih =>
    simp only [readLE, List.getD_cons_succ]
    rw [ih (off + 1)]

theorem toLE_length (n : Nat) : ∀ (v : Nat), (toLE v n).length = n := by
  induction n with
  | zero => intro _; rfl
  | succ m ih => intro v; simp only [toLE, List.length_cons, ih]

theorem readLE_toLE (n : Nat) : ∀ (v : Nat), readLE (toLE v n) 0 n = v % 2 ^ (8 * n) := by
  induction n with
  | zero => intro v; simp [readLE, toLE, Nat.mod_one]
  | succ m ih =>
    intro v
    simp only [toLE, readLE, List.getD_cons_zero]
    rw [show (0:Nat) + 1 = 0 + 1 from rfl, readLE_cons, ih (v / 256)]
    have hpow : (2:Nat) ^ (8 * (m + 1)) = 256 * 2 ^ (8 * m) := by
      rw [show 8 * (m + 1) = 8 * m + 8 by omega, pow_add]
      norm_num
      ring
    rw [hpow, Nat.mod_mul]

theorem toLE_lt (n v : Nat) (hv : v < 2 ^ (8 * n)) : readLE (toLE v n) 0 n = v := by
  rw [readLE_toLE, Nat.mod_eq_of_lt hv]

theorem signed64_usub (a b : Nat) (ha : a < 2 ^ 63) (hb : b < 2 ^ 63) :
    signed64 (usub a b) = (a : Int) - (b : Int) := by
  rcases Nat.le_total b a with hab | hab
  · have h1 : usub a b = a - b := by simp only [usub, W]; omega
    have h2 : (a - b) % W = a - b := by simp only [W]; omega
    simp only [signed64, h1, h2, if_pos (show a - b < 2 ^ 63 by omega)]
    omega
  · by_cases hab2 : a = b
    · subst hab2
      have h1 : usub a a = 0 := by simp only [usub, W]; omega
      simp only [signed64, h1, W]
      norm_num
    · have h1 : usub a b = W - (b - a) := by simp only [usub, W]; omega
      have h3 : (W - (b - a)) % W = W - (b - a) := by simp only [W]; omega
      have h2 : ¬ (W - (b - a)) % W < 2 ^ 63 := by rw [h3]; simp only [W]; omega
      simp only [signed64, if_neg h2, h1, h3]
      simp only [W]
      omega

/-! ### Branch equations for the handlers and the dispatcher -/

theorem copy_err_input (input : input_file) (output : output_file) (zinfo : zinfo_record)
    (h : zinfo.offset + zinfo.len > input.len) :
    process_zinfo_copy input output zinfo = ⟨some .inputOverrun, output⟩ := by
  simp only [process_zinfo_copy, if_pos h]

theorem copy_err_output (input : input_file) (output : output_file) (zinfo : zinfo_record)
    (h1 : ¬ zinfo.offset + zinfo.len > input.len)
    (h2 : (align output.len zinfo.algn + zinfo.len) % W > output.max_len) :
    process_zinfo_copy input output zinfo =
      ⟨some .outputOverrun, { output with len := align output.len zinfo.algn }⟩ := by
  simp only [process_zinfo_copy, if_neg h1, if_pos h2]

theorem copy_ok (input : input_file) (output : output_file) (zinfo : zinfo_record)
    (h1 : ¬ zinfo.offset + zinfo.len > input.len)
    (h2 : ¬ (align output.len zinfo.algn + zinfo.len) % W > output.max_len) :
    process_zinfo_copy input output zinfo =
      ⟨none,
        { output with
          buf := writeBytes output.buf (align output.len zinfo.algn)
                   (slice input.buf zinfo.offset zinfo.len),
          len := (align output.len zinfo.algn + zinfo.len) % W }⟩ := by
  simp only [process_zinfo_copy, if_neg h1, if_neg h2]

theorem pack_err_input (compress : Bytes → Option Bytes) (input : input_file)
    (output : output_file) (zinfo : zinfo_record)
    (h : zinfo.offset + zinfo.len > input.len) :
    process_zinfo_pack compress input output zinfo = ⟨some .inputOverrun, output⟩ := by
  simp only [process_zinfo_pack, if_pos h]

theorem pack_err_align (compress : Bytes → Option Bytes) (input : input_file)
    (output : output_file) (zinfo : zinfo_record)
    (h1 : ¬ zinfo.offset + zinfo.len > input.len)
    (h2 : align output.len zinfo.algn > output.max_len) :
    process_zinfo_pack compress input output zinfo =
      ⟨some .outputOverrun, { output with len := align output.len zinfo.algn }⟩ := by
  simp only [process_zinfo_pack, if_neg h1, if_pos h2]

theorem pack_err_compress (compress : Bytes → Option Bytes) (input : input_file)
    (output : output_file) (zinfo : zinfo_record)
    (h1 : ¬ zinfo.offset + zinfo.len > input.len)
    (h2 : ¬ align output.len zinfo.algn > output.max_len)
    (h3 : compress (slice input.buf zinfo.offset zinfo.len) = none) :
    process_zinfo_pack compress input output zinfo =
      ⟨some .compressionFailure, { output with len := align output.len zinfo.algn }⟩ := by
  simp only [process_zinfo_pack, if_neg h1, if_neg h2, h3]

theorem pack_err_overrun (compress : Bytes → Option Bytes) (input : input_file)
    (output : output_file) (zinfo : zinfo_record) (packed : Bytes)
    (h1 : ¬ zinfo.offset + zinfo.len > input.len)
    (h2 : ¬ align output.len zinfo.algn > output.max_len)
    (h3 : compress (slice input.buf zinfo.offset zinfo.len) = some packed)
    (h4 : (align output.len zinfo.algn + packed.length) % W > output.max_len) :
    process_zinfo_pack compress input output zinfo =
      ⟨some .outputOverrun,
        { output with
          buf := writeBytes output.buf (align output.len zinfo.algn) packed,
          len := (align output.len zinfo.algn + packed.length) % W }⟩ := by
  simp only [process_zinfo_pack, if_neg h1, if_neg h2, h3, if_pos h4]

theorem pack_ok (compress : Bytes → Option Bytes) (input : input_file)
    (output : output_file) (zinfo : zinfo_record) (packed : Bytes)
    (h1 : ¬ zinfo.offset + zinfo.len > input.len)
    (h2 : ¬ align output.len zinfo.algn > output.max_len)
    (h3 : compress (slice input.buf zinfo.offset zinfo.len) = some packed)
    (h4 : ¬ (align output.len zinfo.algn + packed.length) % W > output.max_len) :
    process_zinfo_pack compress input output zinfo =
      ⟨none,
        { output with
          buf := writeBytes output.buf (align output.len zinfo.algn) packed,
          len := (align output.len zinfo.algn + packed.length) % W }⟩ := by
  simp only [process_zinfo_pack, if_neg h1, if_neg h2, h3, if_neg h4]

theorem subtract_err_range (input : input_file) (output : output_file)
    (subtract : zinfo_record) (datasize : Nat)
    (h : subtract.offset + datasize > output.len) :
    process_zinfo_subtract input output subtract datasize =
      ⟨some .patchOutOfRange, output⟩ := by
  simp only [process_zinfo_subtract, if_pos h]

theorem subtract_ok (input : input_file) (output : output_file)
    (subtract : zinfo_record) (datasize : Nat)
    (h1 : ¬ subtract.offset + datasize > output.len)
    (h2 : datasize = 1 ∨ datasize = 2 ∨ datasize = 4) :
    process_zinfo_subtract input output subtract datasize =
      ⟨none,
        { output with
          buf := writeBytes output.buf subtract.offset
            (toLE
              (((readLE output.buf subtract.offset datasize : Int) +
                Int.tdiv
                  (signed64 (usub (align output.len subtract.divisor)
                                  (align input.len subtract.divisor)))
                  (subtract.divisor : Int)) %
                  ((2 ^ (8 * datasize) : Nat) : Int)).toNat
              datasize) }⟩ := by
  simp only [process_zinfo_subtract, if_neg h1, if_pos h2]

theorem process_zinfo_eq_copy (compress : Bytes → Option Bytes) (input : input_file)
    (output : output_file) (zinfo : zinfo_record) (h : cstring zinfo.type = copyTag) :
    process_zinfo compress input output zinfo = process_zinfo_copy input output zinfo := by
  simp only [process_zinfo, zinfo_processors, h]
  rw [List.find?_cons_of_pos _ (by simp)]

theorem process_zinfo_eq_pack (compress : Bytes → Option Bytes) (input : input_file)
    (output : output_file) (zinfo : zinfo_record) (h : cstring zinfo.type = packTag) :
    process_zinfo compress input output zinfo =
      process_zinfo_pack compress input output zinfo := by
  simp only [process_zinfo, zinfo_processors, h]
  rw [List.find?_cons_of_neg _ (by decide), List.find?_cons_of_pos _ (by simp)]

theorem process_zinfo_eq_subb (compress : Bytes → Option Bytes) (input : input_file)
    (output : output_file) (zinfo : zinfo_record) (h : cstring zinfo.type = subbTag) :
    process_zinfo compress input output zinfo = process_zinfo_subb input output zinfo := by
  simp only [process_zinfo, zinfo_processors, h]
  rw [List.find?_cons_of_neg _ (by decide),
    List.find?_cons_of_neg _ (by show ¬(packTag == subbTag) = true; decide),
    List.find?_cons_of_pos _ (by simp)]

theorem process_zinfo_eq_subw (compress : Bytes → Option Bytes) (input : input_file)
    (output : output_file) (zinfo : zinfo_record) (h : cstring zinfo.type = subwTag) :
    process_zinfo compress input output zinfo = process_zinfo_subw input output zinfo := by
  simp only [process_zinfo, zinfo_processors, h]
  rw [List.find?_cons_of_neg _ (by decide),
    List.find?_cons_of_neg _ (by show ¬(packTag == subwTag) = true; decide),
    List.find?_cons_of_neg _ (by decide), List.find?_cons_of_pos _ (by simp)]

theorem process_zinfo_eq_subl (compress : Bytes → Option Bytes) (input : input_file)
    (output : output_file) (zinfo : zinfo_record) (h : cstring zinfo.type = sublTag) :
    process_zinfo compress input output zinfo = process_zinfo_subl input output zinfo := by
  simp only [process_zinfo, zinfo_processors, h]
  rw [List.find?_cons_of_neg _ (by decide),
    List.find?_cons_of_neg _ (by show ¬(packTag == sublTag) = true; decide),
    List.find?_cons_of_neg _ (by decide), List.find?_cons_of_neg _ (by decide),
    List.find?_cons_of_pos _ (by simp)]

theorem process_zinfo_eq_unknown (compress : Bytes → Option Bytes) (input : input_file)
    (output : output_file) (zinfo : zinfo_record)
    (h : ∀ tag ∈ [copyTag, packTag, subbTag, subwTag, sublTag],
      cstring zinfo.type ≠ tag) :
    process_zinfo compress input output zinfo = ⟨some .unknownDirective, output⟩ := by
  have h1 := h copyTag (by simp)
  have h2 := h packTag (by simp)
  have h3 := h subbTag (by simp)
  have h4 := h subwTag (by simp)
  have h5 := h sublTag (by simp)
  simp only [process_zinfo, zinfo_processors]
  rw [List.find?_cons_of_neg _ (by simp [Ne.symm h1]),
    List.find?_cons_of_neg _ (by simp [Ne.symm h2]),
    List.find?_cons_of_neg _ (by simp [Ne.symm h3]),
    List.find?_cons_of_neg _ (by simp [Ne.symm h4]),
    List.find?_cons_of_neg _ (by simp [Ne.symm h5])]
  rfl

theorem cstring_eq_tag (t tag : Bytes) (ht : t.length = 4) (htag : tag.length = 4)
    (h : cstring t = tag) : t = tag := by
  have h1 : t.take 4 = t := List.take_of_length_le (by omega)
  have hpref : cstring t <+: t := by
    rw [cstring, h1]
    exact List.takeWhile_prefix _
  rw [h] at hpref
  exact (hpref.eq_of_length (by omega)).symm

theorem process_all_cons_err (compress : Bytes → Option Bytes) (input : input_file)
    (z : zinfo_record) (zs : List zinfo_record) (output : output_file)
    (e : zerr) (output2 : output_file)
    (h : process_zinfo compress input output z = ⟨some e, output2⟩) :
    process_all compress input (z :: zs) output = .error (e, output2) := by
  simp only [process_all, h]

theorem process_all_cons_ok (compress : Bytes → Option Bytes) (input : input_file)
    (z : zinfo_record) (zs : List zinfo_record) (output output2 : output_file)
    (h : process_zinfo compress input output z = ⟨none, output2⟩) :
    process_all compress input (z :: zs) output =
      process_all compress input zs output2 := by
  simp only [process_all, h]

theorem zbin_output_of_err (compress : Bytes → Option Bytes) (input : input_file)
    (zs : List zinfo_record) (malloc_bytes : Bytes) (e : zerr) (st : output_file)
    (h : process_all compress input zs
      (alloc_output_file ((input.len * 4) % W) malloc_bytes) = .error (e, st)) :
    zbin_output compress input zs malloc_bytes = none := by
  simp only [zbin_output, h]

/-- Any directive that returns success leaves `len ≤ max_len` and the
capacity unchanged (for any compressor and any starting state satisfying
the invariant). -/
theorem process_zinfo_ok_inv (compress : Bytes → Option Bytes) (input : input_file)
    (output : output_file) (zinfo : zinfo_record) (out2 : output_file)
    (hinv : output.len ≤ output.max_len)
    (h : process_zinfo compress input output zinfo = ⟨none, out2⟩) :
    out2.len ≤ out2.max_len ∧ out2.max_len = output.max_len := by
  by_cases hc1 : cstring zinfo.type = copyTag
  · rw [process_zinfo_eq_copy compress input output zinfo hc1] at h
    by_cases h1 : zinfo.offset + zinfo.len > input.len
    · rw [copy_err_input input output zinfo h1] at h
      simp at h
    · by_cases h2 : (align output.len zinfo.algn + zinfo.len) % W > output.max_len
      · rw [copy_err_output input output zinfo h1 h2] at h
        simp at h
      · rw [copy_ok input output zinfo h1 h2] at h
        simp only [handler_result.mk.injEq, true_and] at h
        subst h
        refine ⟨?_, rfl⟩
        show (align output.len zinfo.algn + zinfo.len) % W ≤ output.max_len
        omega
  · by_cases hc2 : cstring zinfo.type = packTag
    · rw [process_zinfo_eq_pack compress input output zinfo hc2] at h
      by_cases h1 : zinfo.offset + zinfo.len > input.len
      · rw [pack_err_input compress input output zinfo h1] at h
        simp at h
      · by_cases h2 : align output.len zinfo.algn > output.max_len
        · rw [pack_err_align compress input output zinfo h1 h2] at h
          simp at h
        · cases h3 : compress (slice input.buf zinfo.offset zinfo.len) with
          | none =>
            rw [pack_err_compress compress input output zinfo h1 h2 h3] at h
            simp at h
          | some packed =>
            by_cases h4 : (align output.len zinfo.algn + packed.length) % W > output.max_len
            · rw [pack_err_overrun compress input output zinfo packed h1 h2 h3 h4] at h
              simp at h
            · rw [pack_ok compress input output zinfo packed h1 h2 h3 h4] at h
              simp only [handler_result.mk.injEq, true_and] at h
              subst h
              refine ⟨?_, rfl⟩
              show (align output.len zinfo.algn + packed.length) % W ≤ output.max_len
              omega
    · by_cases hc3 : cstring zinfo.type = subbTag
      · rw [process_zinfo_eq_subb compress input output zinfo hc3] at h
        simp only [process_zinfo_subb] at h
        by_cases h1 : zinfo.offset + 1 > output.len
        · rw [subtract_err_range input output zinfo 1 h1] at h
          simp at h
        · rw [subtract_ok input output zinfo 1 h1 (by omega)] at h
          simp only [handler_result.mk.injEq, true_and] at h
          subst h
          exact ⟨hinv, rfl⟩
      · by_cases hc4 : cstring zinfo.type = subwTag
        · rw [process_zinfo_eq_subw compress input output zinfo hc4] at h
          simp only [process_zinfo_subw] at h
          by_cases h1 : zinfo.offset + 2 > output.len
          · rw [subtract_err_range input output zinfo 2 h1] at h
            simp at h
          · rw [subtract_ok input output zinfo 2 h1 (by omega)] at h
            simp only [handler_result.mk.injEq, true_and] at h
            subst h
            exact ⟨hinv, rfl⟩
        · by_cases hc5 : cstring zinfo.type = sublTag
          · rw [process_zinfo_eq_subl compress input output zinfo hc5] at h
            simp only [process_zinfo_subl] at h
            by_cases h1 : zinfo.offset + 4 > output.len
            · rw [subtract_err_range input output zinfo 4 h1] at h
              simp at h
            · rw [subtract_ok input output zinfo 4 h1 (by omega)] at h
              simp only [handler_result.mk.injEq, true_and] at h
              subst h
              exact ⟨hinv, rfl⟩
          · have hne : ∀ tag ∈ [copyTag, packTag, subbTag, subwTag, sublTag],
                cstring zinfo.type ≠ tag := by
              intro tag htag
              simp only [List.mem_cons, List.not_mem_nil, or_false] at htag
              rcases htag with rfl | rfl | rfl | rfl | rfl <;> assumption
            rw [process_zinfo_eq_unknown compress input output zinfo hne] at h
            simp at h

/-- Running any directive list from a state satisfying the invariant ends,
when it succeeds, in a state satisfying the invariant. -/
theorem process_all_ok_inv (compress : Bytes → Option Bytes) (input : input_file) :
    ∀ (zs : List zinfo_record) (output st : output_file),
    output.len ≤ output.max_len →
    process_all compress input zs output = .ok st →
    st.len ≤ st.max_len := by
  intro zs
  induction zs with
  | nil =>
    intro output st h hall
    simp only [process_all, Except.ok.injEq] at hall
    subst hall
    exact h
  | cons z zs ih =>
    intro output st h hall
    cases hres : process_zinfo compress input output z with
    | mk err out2 =>
      cases err with
      | some e =>
        rw [process_all_cons_err compress input z zs output e out2 hres] at hall
        simp at hall
      | none =>
        rw [process_all_cons_ok compress input z zs output out2 hres] at hall
        exact ih out2 st (process_zinfo_ok_inv compress input output z out2 h hres).1 hall

/-! ### Claims -/

/-- C1 counterexample: in the state `len = 3`, `max_len = 4` (reachable from
a 1-byte input via three COPY directives), the directive
`COPY {offset 0, len 0, align 8}` fails the output-overrun check, but only
after the alignment step has already stored `len = 8 > max_len`, so the
claimed invariant `len ≤ max_len` is false at the point where the handler
returns failure. -/
theorem c1_counterexample :
    (process_zinfo_copy ⟨[0]⟩ ⟨[0, 0, 0, 0], 3, 4⟩ ⟨copyTag, 0, 0, 8⟩).err =
        some .outputOverrun ∧
      (process_zinfo_copy ⟨[0]⟩ ⟨[0, 0, 0, 0], 3, 4⟩ ⟨copyTag, 0, 0, 8⟩).out.len = 8 ∧
      ¬ ((process_zinfo_copy ⟨[0]⟩ ⟨[0, 0, 0, 0], 3, 4⟩ ⟨copyTag, 0, 0, 8⟩).out.len ≤
        (process_zinfo_copy ⟨[0]⟩ ⟨[0, 0, 0, 0], 3, 4⟩ ⟨copyTag, 0, 0, 8⟩).out.max_len) := by
  decide

/-- C1 (amended): the invariant `0 ≤ len ≤ max_len` holds at allocation
(`len = 0`) and is preserved by every directive that returns success, for
any compressor; hence it holds at every observable point of a run that has
not failed.  It is NOT guaranteed at the point where a handler returns
failure: the alignment step (and PACK's post-compression advance) can leave
`len > max_len` on a failing path, after which the run aborts immediately. -/
theorem c1_invariant (compress : Bytes → Option Bytes) (input : input_file) :
    (∀ max_len malloc_bytes, (alloc_output_file max_len malloc_bytes).len = 0) ∧
    (∀ (output : output_file) (zinfo : zinfo_record) (out2 : output_file),
      output.len ≤ output.max_len →
      process_zinfo compress input output zinfo = ⟨none, out2⟩ →
      out2.len ≤ out2.max_len) ∧
    (∀ (zs : List zinfo_record) (output st : output_file),
      output.len ≤ output.max_len →
      process_all compress input zs output = .ok st →
      st.len ≤ st.max_len) :=
  ⟨fun _ _ => rfl,
   fun output zinfo out2 h1 h2 =>
     (process_zinfo_ok_inv compress input output zinfo out2 h1 h2).1,
   fun zs output st h1 h2 => process_all_ok_inv compress input zs output st h1 h2⟩

/-- Witness for `c1_invariant` at a concrete successful COPY step. -/
theorem c1_invariant_witness :
    (⟨[7, 0, 0, 0], 1, 4⟩ : output_file).len ≤
      (⟨[7, 0, 0, 0], 1, 4⟩ : output_file).max_len :=
  (c1_invariant (fun _ => none) ⟨[7]⟩).2.1 ⟨[0, 0, 0, 0], 0, 4⟩ ⟨copyTag, 0, 1, 1⟩
    ⟨[7, 0, 0, 0], 1, 4⟩ (by decide) (by decide)

/-- C8 counterexample: at `v = 2^64 - 1`, `a = 2` the C `align` wraps around
the 64-bit word and returns 0, so `align v a ≥ v` fails for that value even
though `a` is a power of two. -/
theorem c8_counterexample :
    align (2 ^ 64 - 1) 2 = 0 ∧ ¬ (2 ^ 64 - 1 ≤ align (2 ^ 64 - 1) 2) := by
  decide

/-- C8 (amended): for every power-of-two alignment `a = 2^k` representable
as `unsigned long` (`k ≤ 63`) and every value `v`, `align` is idempotent
and `align v a mod a = 0`; and `align v a ≥ v` holds whenever `v + a - 1`
does not wrap around the 64-bit word (`v + 2^k ≤ 2^64`). -/
theorem c8_align_properties (v k : Nat) (hk : k ≤ 63) :
    align (align v (2 ^ k)) (2 ^ k) = align v (2 ^ k) ∧
    align v (2 ^ k) % 2 ^ k = 0 ∧
    (v + 2 ^ k ≤ W → v ≤ align v (2 ^ k)) :=
  ⟨align_idem v k hk, align_mod_self v k hk, fun hw => align_ge v k hk hw⟩

/-- Witness for `c8_align_properties` at `v = 5`, `a = 4`. -/
theorem c8_align_properties_witness :
    align (align 5 (2 ^ 2)) (2 ^ 2) = align 5 (2 ^ 2) ∧
      align 5 (2 ^ 2) % 2 ^ 2 = 0 ∧ 5 ≤ align 5 (2 ^ 2) :=
  ⟨(c8_align_properties 5 2 (by decide)).1,
   (c8_align_properties 5 2 (by decide)).2.1,
   (c8_align_properties 5 2 (by decide)).2.2 (by decide)⟩

/-- C2 counterexample: input of 4 bytes, output state `len = 1`,
`max_len = 4`; `COPY {offset 0, len 4, align 2}` passes the input check and
fails the output-overrun check, but the handler has already advanced
`output.len` from 1 to `align(1,2) = 2`, so the output file is NOT left
exactly as it was before the handler ran. -/
theorem c2_counterexample :
    (process_zinfo_copy ⟨[0, 0, 0, 0]⟩ ⟨[9, 9, 9, 9], 1, 4⟩ ⟨copyTag, 0, 4, 2⟩).err =
        some .outputOverrun ∧
      (process_zinfo_copy ⟨[0, 0, 0, 0]⟩ ⟨[9, 9, 9, 9], 1, 4⟩ ⟨copyTag, 0, 4, 2⟩).out ≠
        ⟨[9, 9, 9, 9], 1, 4⟩ := by
  decide

/-- C2 (amended): an out-of-bounds COPY or PACK (`offset + len > input.len`)
fails leaving the output file (bytes and `len`) exactly as it was.  A COPY
whose write would exceed `max_len`, a PACK whose aligned position exceeds
`max_len`, and a PACK whose compression fails, all fail with the output
BYTES unchanged but with `len` already advanced to `align(old_len, align)`;
a PACK whose compressed result overruns fails only after the compressed
bytes have been written at the aligned position and `len` advanced past
`max_len`. -/
theorem c2_failure_states (compress : Bytes → Option Bytes) (input : input_file)
    (output : output_file) (zinfo : zinfo_record) :
    ((zinfo.offset + zinfo.len > input.len →
        process_zinfo_copy input output zinfo = ⟨some .inputOverrun, output⟩) ∧
     (zinfo.offset + zinfo.len ≤ input.len →
      (align output.len zinfo.algn + zinfo.len) % W > output.max_len →
        process_zinfo_copy input output zinfo =
          ⟨some .outputOverrun, { output with len := align output.len zinfo.algn }⟩)) ∧
    ((zinfo.offset + zinfo.len > input.len →
        process_zinfo_pack compress input output zinfo = ⟨some .inputOverrun, output⟩) ∧
     (zinfo.offset + zinfo.len ≤ input.len →
      align output.len zinfo.algn > output.max_len →
        process_zinfo_pack compress input output zinfo =
          ⟨some .outputOverrun, { output with len := align output.len zinfo.algn }⟩) ∧
     (zinfo.offset + zinfo.len ≤ input.len →
      align output.len zinfo.algn ≤ output.max_len →
      compress (slice input.buf zinfo.offset zinfo.len) = none →
        process_zinfo_pack compress input output zinfo =
          ⟨some .compressionFailure, { output with len := align output.len zinfo.algn }⟩) ∧
     (∀ packed, zinfo.offset + zinfo.len ≤ input.len →
      align output.len zinfo.algn ≤ output.max_len →
      compress (slice input.buf zinfo.offset zinfo.len) = some packed →
      (align output.len zinfo.algn + packed.length) % W > output.max_len →
        process_zinfo_pack compress input output zinfo =
          ⟨some .outputOverrun,
            { output with
              buf := writeBytes output.buf (align output.len zinfo.algn) packed,
              len := (align output.len zinfo.algn + packed.length) % W }⟩)) :=
  ⟨⟨fun h1 => copy_err_input input output zinfo h1,
    fun h1 h2 => copy_err_output input output zinfo (by omega) h2⟩,
   ⟨fun h1 => pack_err_input compress input output zinfo h1,
    fun h1 h2 => pack_err_align compress input output zinfo (by omega) h2,
    fun h1 h2 h3 => pack_err_compress compress input output zinfo (by omega) (by omega) h3,
    fun packed h1 h2 h3 h4 =>
      pack_err_overrun compress input output zinfo packed (by omega) (by omega) h3 h4⟩⟩

/-- Witness for `c2_failure_states`: an out-of-bounds COPY from an empty
input leaves the output file untouched. -/
theorem c2_failure_states_witness :
    process_zinfo_copy ⟨[]⟩ ⟨[1], 0, 1⟩ ⟨copyTag, 0, 1, 1⟩ =
      ⟨some .inputOverrun, ⟨[1], 0, 1⟩⟩ :=
  (c2_failure_states (fun _ => none) ⟨[]⟩ ⟨[1], 0, 1⟩ ⟨copyTag, 0, 1, 1⟩).1.1 (by decide)

/-- C5: a COPY whose source range is inside the input and whose aligned
write fits inside the capacity succeeds, sets `len` to
`align(old_len, align) + len`, and copies the input range byte-for-byte to
the aligned position.  (The input file is immutable in the model: the
handler has no way to alter it.) -/
theorem c5_copy_correct (input : input_file) (output : output_file)
    (zinfo : zinfo_record)
    (hwf : output.buf.length = output.max_len)
    (hmax : output.max_len < W)
    (h1 : zinfo.offset + zinfo.len ≤ input.len)
    (h2 : align output.len zinfo.algn + zinfo.len ≤ output.max_len) :
    (process_zinfo_copy input output zinfo).err = none ∧
    (process_zinfo_copy input output zinfo).out.len =
      align output.len zinfo.algn + zinfo.len ∧
    slice (process_zinfo_copy input output zinfo).out.buf
        (align output.len zinfo.algn) zinfo.len =
      slice input.buf zinfo.offset zinfo.len := by
  have hmod : (align output.len zinfo.algn + zinfo.len) % W =
      align output.len zinfo.algn + zinfo.len := Nat.mod_eq_of_lt (by omega)
  have hsl : (slice input.buf zinfo.offset zinfo.len).length = zinfo.len := by
    have h1' := h1
    simp only [input_file.len] at h1'
    simp only [slice, List.length_take, List.length_drop]
    omega
  rw [copy_ok input output zinfo (by omega) (by omega)]
  refine ⟨rfl, ?_, ?_⟩
  · show (align output.len zinfo.algn + zinfo.len) % W =
      align output.len zinfo.algn + zinfo.len
    exact hmod
  · show slice (writeBytes output.buf (align output.len zinfo.algn)
      (slice input.buf zinfo.offset zinfo.len)) (align output.len zinfo.algn) zinfo.len =
      slice input.buf zinfo.offset zinfo.len
    have hws := writeBytes_slice output.buf (slice input.buf zinfo.offset zinfo.len)
      (align output.len zinfo.algn) (by rw [hsl]; omega)
    rw [hsl] at hws
    exact hws

/-- Witness for `c5_copy_correct`: copy bytes `[2, 3]` of the input to the
aligned position 2. -/
theorem c5_copy_correct_witness :
    (process_zinfo_copy ⟨[1, 2, 3]⟩ ⟨[0, 0, 0, 0], 1, 4⟩ ⟨copyTag, 1, 2, 2⟩).err = none ∧
    (process_zinfo_copy ⟨[1, 2, 3]⟩ ⟨[0, 0, 0, 0], 1, 4⟩ ⟨copyTag, 1, 2, 2⟩).out.len =
      align 1 2 + 2 ∧
    slice (process_zinfo_copy ⟨[1, 2, 3]⟩ ⟨[0, 0, 0, 0], 1, 4⟩ ⟨copyTag, 1, 2, 2⟩).out.buf
      (align 1 2) 2 = slice [1, 2, 3] 1 2 :=
  c5_copy_correct ⟨[1, 2, 3]⟩ ⟨[0, 0, 0, 0], 1, 4⟩ ⟨copyTag, 1, 2, 2⟩ (by decide)
    (by decide) (by decide) (by decide)

/-- C10: a COPY with `len = 0` whose offset is within the input and whose
aligned position is within the capacity succeeds, copies no bytes (the
buffer is unchanged), and still advances `output.len` to
`align(old_len, align)`: a zero-length COPY inserts alignment padding. -/
theorem c10_zero_len_copy (input : input_file) (output : output_file)
    (zinfo : zinfo_record)
    (hmax : output.max_len < W)
    (hlen : zinfo.len = 0)
    (h1 : zinfo.offset ≤ input.len)
    (h2 : align output.len zinfo.algn ≤ output.max_len) :
    process_zinfo_copy input output zinfo =
      ⟨none, { output with len := align output.len zinfo.algn }⟩ := by
  have hmod : (align output.len zinfo.algn + zinfo.len) % W =
      align output.len zinfo.algn := by
    rw [hlen, Nat.add_zero]
    exact Nat.mod_eq_of_lt (by omega)
  have hslice : slice input.buf zinfo.offset zinfo.len = [] := by
    rw [hlen]
    simp [slice]
  rw [copy_ok input output zinfo (by omega) (by rw [hmod]; omega)]
  rw [hslice, writeBytes_nil, hmod]

/-- Witness for `c10_zero_len_copy`: `len = 1` is padded up to 4 with no
byte copied. -/
theorem c10_zero_len_copy_witness :
    process_zinfo_copy ⟨[]⟩ ⟨[5, 5, 5, 5], 1, 4⟩ ⟨copyTag, 0, 0, 4⟩ =
      ⟨none, ⟨[5, 5, 5, 5], align 1 4, 4⟩⟩ :=
  c10_zero_len_copy ⟨[]⟩ ⟨[5, 5, 5, 5], 1, 4⟩ ⟨copyTag, 0, 0, 4⟩ (by decide) (by decide)
    (by decide) (by decide)

/-- C6: the PACK handler's two-phase bounds check.  Before compression only
the aligned length is checked against `max_len` (and on that failure the
result does not depend on the compressor at all); once that check passes,
the handler fails with `CompressionFailure` exactly when the compressor
reports non-success; on success `len` is advanced by the reported compressed
length and the handler returns success exactly when the advanced `len` is
within `max_len`, failing with the second `OutputOverrun` otherwise. -/
theorem c6_pack_two_phase (compress : Bytes → Option Bytes) (input : input_file)
    (output : output_file) (zinfo : zinfo_record)
    (h1 : zinfo.offset + zinfo.len ≤ input.len) :
    (align output.len zinfo.algn > output.max_len →
      process_zinfo_pack compress input output zinfo =
        ⟨some .outputOverrun, { output with len := align output.len zinfo.algn }⟩) ∧
    (align output.len zinfo.algn ≤ output.max_len →
      ((process_zinfo_pack compress input output zinfo).err = some .compressionFailure ↔
        compress (slice input.buf zinfo.offset zinfo.len) = none) ∧
      (∀ packed, compress (slice input.buf zinfo.offset zinfo.len) = some packed →
        (process_zinfo_pack compress input output zinfo).out.len =
          (align output.len zinfo.algn + packed.length) % W ∧
        ((process_zinfo_pack compress input output zinfo).err = none ↔
          (align output.len zinfo.algn + packed.length) % W ≤ output.max_len))) := by
  constructor
  · intro h2
    exact pack_err_align compress input output zinfo (by omega) h2
  · intro h2
    constructor
    · constructor
      · intro he
        cases h3 : compress (slice input.buf zinfo.offset zinfo.len) with
        | none => rfl
        | some packed =>
          exfalso
          by_cases h4 : (align output.len zinfo.algn + packed.length) % W > output.max_len
          · rw [pack_err_overrun compress input output zinfo packed (by omega) (by omega)
              h3 h4] at he
            simp at he
          · rw [pack_ok compress input output zinfo packed (by omega) (by omega) h3 h4] at he
            simp at he
      · intro h3
        rw [pack_err_compress compress input output zinfo (by omega) (by omega) h3]
    · intro packed h3
      by_cases h4 : (align output.len zinfo.algn + packed.length) % W > output.max_len
      · rw [pack_err_overrun compress input output zinfo packed (by omega) (by omega) h3 h4]
        refine ⟨rfl, ?_⟩
        constructor
        · intro he
          simp at he
        · intro hle
          omega
      · rw [pack_ok compress input output zinfo packed (by omega) (by omega) h3 h4]
        refine ⟨rfl, ?_⟩
        constructor
        · intro _
          omega
        · intro _
          rfl

/-- Witness for `c6_pack_two_phase`: alignment alone overruns the capacity,
so PACK fails before any compression. -/
theorem c6_pack_two_phase_witness :
    process_zinfo_pack (fun _ => none) ⟨[3]⟩ ⟨[0, 0], 1, 1⟩ ⟨packTag, 0, 1, 2⟩ =
      ⟨some .outputOverrun, ⟨[0, 0], align 1 2, 1⟩⟩ :=
  (c6_pack_two_phase (fun _ => none) ⟨[3]⟩ ⟨[0, 0], 1, 1⟩ ⟨packTag, 0, 1, 2⟩
    (by decide)).1 (by decide)

/-- C9: the only guard executed before the division in
`process_zinfo_subtract` is the range check `offset + datasize > output.len`
(plus the datasize switch, always satisfied for SUBB/SUBW/SUBL): a directive
whose `divisor` field is 0 is not rejected by any code path — the handler
reaches the division and returns success.  The Lean model evaluates
`Int.tdiv x 0 = 0`; in the C source the division is undefined behaviour for
`divisor = 0`, which is exactly why the delta computation is well-defined
only under the precondition `divisor ≠ 0`. -/
theorem c9_no_divisor_check (input : input_file) (output : output_file)
    (subtract : zinfo_record) (datasize : Nat)
    (hds : datasize = 1 ∨ datasize = 2 ∨ datasize = 4)
    (hrange : subtract.offset + datasize ≤ output.len) :
    (process_zinfo_subtract input output subtract datasize).err = none := by
  rw [subtract_ok input output subtract datasize (by omega) hds]

/-- Witness for `c9_no_divisor_check`: a SUBB record with `divisor = 0`
passes the range check and is not rejected. -/
theorem c9_no_divisor_check_witness :
    (process_zinfo_subtract ⟨[]⟩ ⟨[5, 5], 2, 2⟩ ⟨subbTag, 0, 0, 0⟩ 1).err = none :=
  c9_no_divisor_check ⟨[]⟩ ⟨[5, 5], 2, 2⟩ ⟨subbTag, 0, 0, 0⟩ 1 (by decide) (by decide)

/-- C7: directive dispatch is a closed exact match on the 4 raw tag bytes:
each of the five known tags invokes exactly its handler; any other 4-byte
tag yields `UnknownDirective` leaving the output untouched; any handler
failure makes the driver loop abort immediately (the remaining directives
are never consulted) and `main` then emits no output. -/
theorem c7_dispatch_closed (compress : Bytes → Option Bytes) (input : input_file) :
    (∀ (output : output_file) (zinfo : zinfo_record),
      (zinfo.type = copyTag →
        process_zinfo compress input output zinfo =
          process_zinfo_copy input output zinfo) ∧
      (zinfo.type = packTag →
        process_zinfo compress input output zinfo =
          process_zinfo_pack compress input output zinfo) ∧
      (zinfo.type = subbTag →
        process_zinfo compress input output zinfo =
          process_zinfo_subb input output zinfo) ∧
      (zinfo.type = subwTag →
        process_zinfo compress input output zinfo =
          process_zinfo_subw input output zinfo) ∧
      (zinfo.type = sublTag →
        process_zinfo compress input output zinfo =
          process_zinfo_subl input output zinfo) ∧
      (zinfo.type.length = 4 →
        zinfo.type ∉ [copyTag, packTag, subbTag, subwTag, sublTag] →
        process_zinfo compress input output zinfo =
          ⟨some .unknownDirective, output⟩)) ∧
    (∀ (z : zinfo_record) (zs : List zinfo_record) (output : output_file)
        (e : zerr) (out2 : output_file),
      process_zinfo compress input output z = ⟨some e, out2⟩ →
      process_all compress input (z :: zs) output = .error (e, out2)) ∧
    (∀ (zs : List zinfo_record) (malloc_bytes : Bytes) (e : zerr) (st : output_file),
      process_all compress input zs
          (alloc_output_file ((input.len * 4) % W) malloc_bytes) = .error (e, st) →
      zbin_output compress input zs malloc_bytes = none) := by
  refine ⟨fun output zinfo => ⟨?_, ?_, ?_, ?_, ?_, ?_⟩, ?_, ?_⟩
  · intro h
    exact process_zinfo_eq_copy compress input output zinfo (by rw [h]; decide)
  · intro h
    exact process_zinfo_eq_pack compress input output zinfo (by rw [h]; decide)
  · intro h
    exact process_zinfo_eq_subb compress input output zinfo (by rw [h]; decide)
  · intro h
    exact process_zinfo_eq_subw compress input output zinfo (by rw [h]; decide)
  · intro h
    exact process_zinfo_eq_subl compress input output zinfo (by rw [h]; decide)
  · intro h4 hmem
    apply process_zinfo_eq_unknown compress input output zinfo
    intro tag htag hceq
    apply hmem
    have htl : tag.length = 4 := by
      simp only [List.mem_cons, List.not_mem_nil, or_false] at htag
      rcases htag with rfl | rfl | rfl | rfl | rfl <;> decide
    rw [cstring_eq_tag zinfo.type tag h4 htl hceq]
    exact htag
  · intro z zs output e out2 h
    exact process_all_cons_err compress input z zs output e out2 h
  · intro zs malloc_bytes e st h
    exact zbin_output_of_err compress input zs malloc_bytes e st h

/-- Witness for `c7_dispatch_closed`: the tag `"XXXX"` is rejected as an
unknown directive without touching the output. -/
theorem c7_dispatch_closed_witness :
    process_zinfo (fun _ => none) ⟨[]⟩ ⟨[], 0, 0⟩ ⟨[88, 88, 88, 88], 0, 0, 0⟩ =
      ⟨some .unknownDirective, ⟨[], 0, 0⟩⟩ :=
  ((c7_dispatch_closed (fun _ => none) ⟨[]⟩).1 ⟨[], 0, 0⟩
    ⟨[88, 88, 88, 88], 0, 0, 0⟩).2.2.2.2.2 (by decide) (by decide)

/-- C3: evaluation of `alloc_output_file` at `max_len = 16` with zeroed
malloc contents.  `len` starts at 0 as claimed, but the `memset` fills only
`sizeof ( output->buf )` = 8 bytes (the size of the pointer member, not of
the allocation) with the 0xff sentinel, so bytes 8..15 of the capacity keep
their indeterminate malloc contents instead of the sentinel. -/
theorem c3_alloc_eval :
    (alloc_output_file 16 (List.replicate 16 0)).len = 0 ∧
    (alloc_output_file 16 (List.replicate 16 0)).max_len = 16 ∧
    (alloc_output_file 16 (List.replicate 16 0)).buf =
      List.replicate 8 0xff ++ List.replicate 8 0 ∧
    (alloc_output_file 16 (List.replicate 16 0)).buf ≠ List.replicate 16 0xff := by
  decide

/-- A euclidean remainder by a positive modulus, cast back to `Nat`, is
below the modulus. -/
theorem emod_toNat_lt (x : Int) (M : Nat) (hM : 0 < M) : (x % (M : Int)).toNat < M := by
  have h1 : (0:Int) < (M : Int) := by exact_mod_cast hM
  have h2 := Int.emod_nonneg x (show ((M : Nat) : Int) ≠ 0 by omega)
  have h3 := Int.emod_lt_of_pos x h1
  omega

/-- Reading back an in-range little-endian write returns the written value. -/
theorem readLE_writeBytes_toLE (buf : Bytes) (off n v : Nat)
    (h : off + n ≤ buf.length) (hv : v < 2 ^ (8 * n)) :
    readLE (writeBytes buf off (toLE v n)) off n = v := by
  have hlenT : (toLE v n).length = n := toLE_length n v
  have hpos : off + (toLE v n).length ≤ buf.length := by rw [hlenT]; omega
  have hcongr : readLE (writeBytes buf off (toLE v n)) off n =
      readLE (toLE v n) 0 n := by
    apply readLE_congr
    intro i hi
    rw [show (0:Nat) + i = i by omega]
    exact writeBytes_getD_mid buf (toLE v n) off i hpos
      (show i < (toLE v n).length by rw [hlenT]; exact hi)
  rw [hcongr]
  exact toLE_lt n v hv

/-- C4: for a SUBB/SUBW/SUBL directive with a nonzero power-of-two divisor
(and realistically sized buffers, so that the 64-bit signed reinterpretation
of the aligned-length difference is exact), the handler fails with
`PatchOutOfRange` iff `offset + datasize > output.len`; otherwise it
replaces the `datasize`-byte little-endian unsigned integer at
`output.buf[offset]` with `(old + delta) mod 2^(8*datasize)` where
`delta = (align(output.len, divisor) - align(input.len, divisor)) / divisor`
with truncating signed division, leaves every other byte unchanged, and
does not change `output.len` or `max_len`. -/
theorem c4_subtract_correct (input : input_file) (output : output_file)
    (subtract : zinfo_record) (datasize k : Nat)
    (hds : datasize = 1 ∨ datasize = 2 ∨ datasize = 4)
    (hdiv : subtract.divisor = 2 ^ k) (hk : k ≤ 31)
    (hwf : output.buf.length = output.max_len)
    (hinv : output.len ≤ output.max_len)
    (hout : output.max_len ≤ 2 ^ 62) (hin : input.len ≤ 2 ^ 62) :
    ((process_zinfo_subtract input output subtract datasize).err =
        some .patchOutOfRange ↔ subtract.offset + datasize > output.len) ∧
    (subtract.offset + datasize ≤ output.len →
      (process_zinfo_subtract input output subtract datasize).err = none ∧
      (process_zinfo_subtract input output subtract datasize).out.len = output.len ∧
      (process_zinfo_subtract input output subtract datasize).out.max_len =
        output.max_len ∧
      readLE (process_zinfo_subtract input output subtract datasize).out.buf
          subtract.offset datasize =
        (((readLE output.buf subtract.offset datasize : Int) +
            Int.tdiv ((align output.len subtract.divisor : Int) -
                (align input.len subtract.divisor : Int)) (subtract.divisor : Int)) %
            ((2 ^ (8 * datasize) : Nat) : Int)).toNat ∧
      (∀ i, i < subtract.offset ∨ subtract.offset + datasize ≤ i →
        (process_zinfo_subtract input output subtract datasize).out.buf.getD i 0 =
          output.buf.getD i 0)) := by
  have hk63 : k ≤ 63 := by omega
  have h2k : (2:Nat) ^ k ≤ 2 ^ 31 := Nat.pow_le_pow_right (by norm_num) hk
  have hWbig : (2:Nat) ^ 62 + 2 ^ 31 ≤ W := by
    simp only [W]
    norm_num
  have h63 : (2:Nat) ^ 62 + 2 ^ 31 ≤ 2 ^ 63 := by norm_num
  have hA : align output.len subtract.divisor < 2 ^ 63 := by
    rw [hdiv]
    have h1 : output.len + 2 ^ k ≤ W := by omega
    have h3 := align_le output.len k hk63 h1
    omega
  have hB : align input.len subtract.divisor < 2 ^ 63 := by
    rw [hdiv]
    have h1 : input.len + 2 ^ k ≤ W := by omega
    have h3 := align_le input.len k hk63 h1
    omega
  have hdelta : signed64 (usub (align output.len subtract.divisor)
      (align input.len subtract.divisor)) =
      (align output.len subtract.divisor : Int) -
        (align input.len subtract.divisor : Int) :=
    signed64_usub _ _ hA hB
  constructor
  · constructor
    · intro he
      by_contra hr
      push_neg at hr
      rw [subtract_ok input output subtract datasize (by omega) hds] at he
      simp at he
    · intro hr
      rw [subtract_err_range input output subtract datasize hr]
  · intro hr
    rw [subtract_ok input output subtract datasize (by omega) hds, hdelta]
    refine ⟨rfl, rfl, rfl, ?_, ?_⟩
    · apply readLE_writeBytes_toLE
      · omega
      · exact emod_toNat_lt _ _ (Nat.two_pow_pos _)
    · intro i hi
      rcases hi with hlt | hge
      · apply writeBytes_getD_left
        · rw [toLE_length]
          omega
        · exact hlt
      · apply writeBytes_getD_right
        · rw [toLE_length]
          omega
        · rw [toLE_length]
          omega

/-- Witness for `c4_subtract_correct`: SUBL with divisor 4 on a 4-byte
output patched in place. -/
theorem c4_subtract_correct_witness :
    (process_zinfo_subtract ⟨[0, 0]⟩ ⟨[16, 0, 0, 0], 4, 4⟩ ⟨sublTag, 0, 4, 0⟩ 4).err =
      none :=
  ((c4_subtract_correct ⟨[0, 0]⟩ ⟨[16, 0, 0, 0], 4, 4⟩ ⟨sublTag, 0, 4, 0⟩ 4 2
    (by decide) (by decide) (by decide) (by decide) (by decide) (by decide)
    (by decide)).2 (by decide)).1

end Zbin
